import Mathlib

/-!
Shallow embedding of the verification-orchestration core of the graal
repository (`compiler/mx.compiler/mx_compiler.py`): path-list utilities,
launch-configuration assembly for the flat-classpath (JDK 8) and module
(JDK 9+) deployment models, the archive service-registry aggregator, the
benchmark gate, and `-XX:` option parsing.

Python string primitives (`str.split`, `str.strip`, `str.startswith`,
`str.join`, slicing) are re-implemented over `List Char` so that every
definition evaluates inside the kernel; `os.pathsep` is `':'` and
`os.linesep` is `"\n"` (the code targets POSIX hosts).
-/

/-- Python `s.split(sep)` for a one-character separator: splitting the empty
string yields `[""]`, and every separator occurrence opens a new field. -/
def splitChars (sep : Char) : List Char → List (List Char)
  | [] => [[]]
  | c :: rest =>
    match splitChars sep rest with
    | [] => [[]]
    | h :: t => if c = sep then [] :: h :: t else (c :: h) :: t

/-- Python `sep.join(parts)` for a one-character separator. -/
def joinChars (sep : Char) : List (List Char) → List Char
  | [] => []
  | [x] => x
  | x :: y :: t => x ++ sep :: joinChars sep (y :: t)

def splitSep (sep : Char) (s : String) : List String :=
  (splitChars sep s.data).map (fun l => ⟨l⟩)

def joinSep (sep : Char) (l : List String) : String :=
  ⟨joinChars sep (l.map String.data)⟩

/-- Python `s.startswith(t)`. -/
def strStartsWith (s t : String) : Bool :=
  t.data.isPrefixOf s.data

/-- Python `s.endswith(t)`. -/
def strEndsWith (s t : String) : Bool :=
  t.data.reverse.isPrefixOf s.data.reverse

/-- Python `s[n:]`. -/
def strDrop (s : String) (n : Nat) : String := ⟨s.data.drop n⟩

/-- Python `len(s)` (the sources only slice ASCII literals). -/
def strLen (s : String) : Nat := s.data.length

/-- Characters removed by Python `str.strip()`. -/
def isPySpace (c : Char) : Bool :=
  c = ' ' || c = '\t' || c = '\n' || c = '\x0d' || c = '\x0b' || c = '\x0c'

/-- Python `s.strip()`. -/
def trimChars (l : List Char) : List Char :=
  ((l.dropWhile isPySpace).reverse.dropWhile isPySpace).reverse

def strTrim (s : String) : String := ⟨trimChars s.data⟩

/-- Embedding of `_uniqify(alist)` (mx_compiler.py, lines 732-740): drops every later
duplicate, keeping the first occurrence of each entry.  The Python `seen`
set is the explicit accumulator of `uniqifyAux`. -/
def uniqifyAux {α : Type} [DecidableEq α] (seen : List α) : List α → List α
  | [] => []
  | e :: rest =>
    if e ∈ seen then uniqifyAux seen rest
    else e :: uniqifyAux (e :: seen) rest

def uniqify {α : Type} [DecidableEq α] (l : List α) : List α :=
  uniqifyAux [] l

theorem mem_uniqifyAux {α : Type} [DecidableEq α] (seen l : List α) (a : α) :
    a ∈ uniqifyAux seen l ↔ a ∈ l ∧ a ∉ seen := by
  induction l generalizing seen with
  | nil => simp [uniqifyAux]
  | cons e rest ih =>
    by_cases he : e ∈ seen
    · rw [uniqifyAux, if_pos he, ih]
      constructor
      · rintro ⟨ha, hs⟩
        exact ⟨List.mem_cons_of_mem _ ha, hs⟩
      · rintro ⟨ha, hs⟩
        rcases List.mem_cons.1 ha with h | h
        · exact absurd (h ▸ he) hs
        · exact ⟨h, hs⟩
    · rw [uniqifyAux, if_neg he]
      constructor
      · intro hmem
        rcases List.mem_cons.1 hmem with h | h
        · exact ⟨h ▸ List.mem_cons_self _ _, h ▸ he⟩
        · have := (ih (e :: seen)).1 h
          refine ⟨List.mem_cons_of_mem _ this.1, fun hs => this.2 ?_⟩
          exact List.mem_cons_of_mem _ hs
      · rintro ⟨ha, hs⟩
        rcases List.mem_cons.1 ha with h | h
        · exact h ▸ List.mem_cons_self _ _
        · by_cases hae : a = e
          · exact hae ▸ List.mem_cons_self _ _
          · refine List.mem_cons_of_mem _ ((ih (e :: seen)).2 ⟨h, ?_⟩)
            intro hmem
            rcases List.mem_cons.1 hmem with h2 | h2
            · exact hae h2
            · exact hs h2

theorem nodup_uniqifyAux {α : Type} [DecidableEq α] (seen l : List α) :
    (uniqifyAux seen l).Nodup := by
  induction l generalizing seen with
  | nil => simp [uniqifyAux]
  | cons e rest ih =>
    by_cases he : e ∈ seen
    · rw [uniqifyAux, if_pos he]; exact ih seen
    · rw [uniqifyAux, if_neg he]
      refine List.nodup_cons.2 ⟨fun hmem => ?_, ih (e :: seen)⟩
      exact ((mem_uniqifyAux _ _ _).1 hmem).2 (List.mem_cons_self _ _)

theorem sublist_uniqifyAux {α : Type} [DecidableEq α] (seen l : List α) :
    (uniqifyAux seen l).Sublist l := by
  induction l generalizing seen with
  | nil => simp [uniqifyAux]
  | cons e rest ih =>
    by_cases he : e ∈ seen
    · rw [uniqifyAux, if_pos he]
      exact (ih seen).trans (List.sublist_cons_self e rest)
    · rw [uniqifyAux, if_neg he]
      exact List.Sublist.cons₂ e (ih (e :: seen))

theorem uniqifyAux_eq_self {α : Type} [DecidableEq α] {seen l : List α}
    (h : ∀ a ∈ l, a ∉ seen) (hl : l.Nodup) : uniqifyAux seen l = l := by
  induction l generalizing seen with
  | nil => simp [uniqifyAux]
  | cons e rest ih =>
    have he : e ∉ seen := h e (List.mem_cons_self _ _)
    rw [uniqifyAux, if_neg he]
    have hrest := List.nodup_cons.1 hl
    refine congrArg (e :: ·) (ih ?_ hrest.2)
    intro a ha hmem
    rcases List.mem_cons.1 hmem with h2 | h2
    · exact hrest.1 (h2 ▸ ha)
    · exact h a (List.mem_cons_of_mem _ ha) h2

theorem indexOf_uniqifyAux {α : Type} [DecidableEq α] (seen l : List α)
    (a b : α) (ha : a ∈ l) (hb : b ∈ l) (has : a ∉ seen) (hbs : b ∉ seen) :
    ((uniqifyAux seen l).indexOf a < (uniqifyAux seen l).indexOf b
      ↔ l.indexOf a < l.indexOf b) := by
  induction l generalizing seen with
  | nil => cases ha
  | cons e rest ih =>
    by_cases he : e ∈ seen
    · have hae : a ≠ e := fun h => has (h ▸ he)
      have hbe : b ≠ e := fun h => hbs (h ▸ he)
      have ha' : a ∈ rest := (List.mem_cons.1 ha).resolve_left hae
      have hb' : b ∈ rest := (List.mem_cons.1 hb).resolve_left hbe
      rw [uniqifyAux, if_pos he, List.indexOf_cons_ne _ (Ne.symm hae),
        List.indexOf_cons_ne _ (Ne.symm hbe), ih seen ha' hb' has hbs]
      exact (Nat.succ_lt_succ_iff).symm
    · rw [uniqifyAux, if_neg he]
      by_cases hbe : b = e
      · subst hbe
        rw [List.indexOf_cons_self, List.indexOf_cons_self]
        simp
      · have hb' : b ∈ rest := (List.mem_cons.1 hb).resolve_left hbe
        by_cases hae : a = e
        · subst hae
          rw [List.indexOf_cons_self, List.indexOf_cons_self,
            List.indexOf_cons_ne _ (Ne.symm hbe), List.indexOf_cons_ne _ (Ne.symm hbe)]
          simp [Nat.succ_pos]
        · have ha' : a ∈ rest := (List.mem_cons.1 ha).resolve_left hae
          have has' : a ∉ e :: seen := by
            intro h; rcases List.mem_cons.1 h with h2 | h2
            · exact hae h2
            · exact has h2
          have hbs' : b ∉ e :: seen := by
            intro h; rcases List.mem_cons.1 h with h2 | h2
            · exact hbe h2
            · exact hbs h2
          rw [List.indexOf_cons_ne _ (Ne.symm hae), List.indexOf_cons_ne _ (Ne.symm hbe),
            List.indexOf_cons_ne _ (Ne.symm hae), List.indexOf_cons_ne _ (Ne.symm hbe),
            Nat.succ_lt_succ_iff, Nat.succ_lt_succ_iff]
          exact ih (e :: seen) ha' hb' has' hbs'

theorem mem_uniqify {α : Type} [DecidableEq α] (l : List α) (a : α) :
    a ∈ uniqify l ↔ a ∈ l := by
  rw [uniqify, mem_uniqifyAux]
  simp

theorem nodup_uniqify {α : Type} [DecidableEq α] (l : List α) :
    (uniqify l).Nodup := nodup_uniqifyAux [] l

theorem sublist_uniqify {α : Type} [DecidableEq α] (l : List α) :
    (uniqify l).Sublist l := sublist_uniqifyAux [] l

theorem indexOf_filter_lt {α : Type} [DecidableEq α] (p : α → Bool) :
    ∀ (l : List α), l.Nodup → ∀ (a b : α), a ∈ l.filter p → b ∈ l.filter p →
      ((l.filter p).indexOf a < (l.filter p).indexOf b
        ↔ l.indexOf a < l.indexOf b) := by
  intro l
  induction l with
  | nil =>
    intro _ a b ha _
    simp at ha
  | cons e rest ih =>
    intro hl a b ha hb
    have hl2 := List.nodup_cons.1 hl
    by_cases hp : p e = true
    · rw [List.filter_cons_of_pos hp] at ha hb ⊢
      by_cases hbe : b = e
      · subst hbe
        rw [List.indexOf_cons_self, List.indexOf_cons_self]
        simp
      · have hb' : b ∈ rest.filter p := (List.mem_cons.1 hb).resolve_left hbe
        by_cases hae : a = e
        · subst hae
          rw [List.indexOf_cons_self, List.indexOf_cons_self,
            List.indexOf_cons_ne _ (Ne.symm hbe), List.indexOf_cons_ne _ (Ne.symm hbe)]
          simp [Nat.succ_pos]
        · have ha' : a ∈ rest.filter p := (List.mem_cons.1 ha).resolve_left hae
          rw [List.indexOf_cons_ne _ (Ne.symm hae), List.indexOf_cons_ne _ (Ne.symm hbe),
            List.indexOf_cons_ne _ (Ne.symm hae), List.indexOf_cons_ne _ (Ne.symm hbe),
            Nat.succ_lt_succ_iff, Nat.succ_lt_succ_iff]
          exact ih hl2.2 a b ha' hb'
    · rw [List.filter_cons_of_neg (by simpa using hp)] at ha hb ⊢
      have ha2 : a ∈ rest := List.mem_of_mem_filter ha
      have hb2 : b ∈ rest := List.mem_of_mem_filter hb
      have hae : a ≠ e := fun h => hl2.1 (h ▸ ha2)
      have hbe : b ≠ e := fun h => hl2.1 (h ▸ hb2)
      rw [List.indexOf_cons_ne _ (Ne.symm hae), List.indexOf_cons_ne _ (Ne.symm hbe),
        Nat.succ_lt_succ_iff]
      exact ih hl2.2 a b ha hb

/-- C7: `_uniqify` returns a subsequence of its input holding each distinct
element exactly once, namely the first occurrences in their original relative
order, and it is idempotent.  (The embedding is pure, matching the Python
function, which builds a fresh list and does not mutate its argument.) -/
theorem uniqify_first_occurrence_subsequence {α : Type} [DecidableEq α] (x : List α) :
    (uniqify x).Sublist x
    ∧ (∀ a : α, (uniqify x).count a = if a ∈ x then 1 else 0)
    ∧ (∀ a b : α, a ∈ x → b ∈ x →
        ((uniqify x).indexOf a < (uniqify x).indexOf b ↔ x.indexOf a < x.indexOf b))
    ∧ uniqify (uniqify x) = uniqify x := by
  refine ⟨sublist_uniqify x, ?_, ?_, ?_⟩
  · intro a
    by_cases ha : a ∈ x
    · rw [if_pos ha]
      exact List.count_eq_one_of_mem (nodup_uniqify x) ((mem_uniqify x a).2 ha)
    · rw [if_neg ha]
      exact List.count_eq_zero.2 (fun h => ha ((mem_uniqify x a).1 h))
  · intro a b ha hb
    exact indexOf_uniqifyAux [] x a b ha hb (List.not_mem_nil a) (List.not_mem_nil b)
  · exact uniqifyAux_eq_self (by simp) (nodup_uniqify x)

/-- Witness for C7 at a concrete list with a duplicate. -/
theorem uniqify_first_occurrence_subsequence_witness :
    ((uniqify [10, 20, 10, 30]).indexOf 20 < (uniqify [10, 20, 10, 30]).indexOf 30
      ↔ ([10, 20, 10, 30] : List Nat).indexOf 20 < [10, 20, 10, 30].indexOf 30)
    ∧ uniqify (uniqify [10, 20, 10, 30]) = uniqify [10, 20, 10, 30]
    ∧ uniqify [10, 20, 10, 30] = [10, 20, 30] :=
  ⟨(uniqify_first_occurrence_subsequence [10, 20, 10, 30]).2.2.1 20 30
      (by decide) (by decide),
   (uniqify_first_occurrence_subsequence [10, 20, 10, 30]).2.2.2,
   by decide⟩

/-- Embedding of `_unittest_config_participant` (mx_compiler.py, lines 686-696), flat
classpath (JDK 8) branch, at the level of the already split `-cp` value:
`cp = _uniqify(cp.split(os.pathsep))` followed by
`[e for e in cp if e not in redundantClasspathEntries]`, where
`redundant` is the set of privileged JVMCI distribution jar paths and the
output directories of their archived Java-project dependencies. -/
def stripRedundantClasspath (redundant : List String) (cp : List String) : List String :=
  (uniqify cp).filter (fun e => decide (e ∉ redundant))

/-- Modelled from the spec's words for comparison (C1): remove the redundant
entries from the user classpath, "keeping all other entries in their original
order" — with no other change. -/
def stripRedundantClasspathSpec (redundant : List String) (cp : List String) : List String :=
  cp.filter (fun e => decide (e ∉ redundant))

/-- Embedding of `_parseVmArgs` (mx_compiler.py, lines 755-757), flat classpath (JDK 8)
branch: the privileged `-Djvmci.class.path.append=` and `-Xbootclasspath/a:`
directives are placed before the caller's arguments unconditionally.
`jvmciPaths` are the jar paths of the `_jvmci_classpath` entries and
`bootPaths` those of `_bootclasspath_appends`; the environment-probing
entries (jacoco agent, `graal.options` file) and the external
`jdk.processArgs` normalization are outside the embedding. -/
def parseVmArgsFlat (jvmciPaths bootPaths : List String) (args : List String) : List String :=
  ("-Djvmci.class.path.append=" ++ joinSep ':' jvmciPaths)
    :: ("-Xbootclasspath/a:" ++ joinSep ':' bootPaths)
    :: args

/-- C1 counterexample: the code first de-duplicates the user classpath, so a
duplicated non-redundant entry is not kept; the claim's removal rule
("keeping all other entries in their original order") would keep it. -/
theorem flat_classpath_subtract_counterexample :
    stripRedundantClasspath ["R"] ["A", "A"] = ["A"]
    ∧ stripRedundantClasspathSpec ["R"] ["A", "A"] = ["A", "A"]
    ∧ stripRedundantClasspath ["R"] ["A", "A"]
        ≠ stripRedundantClasspathSpec ["R"] ["A", "A"] := by
  decide

/-- C1 (amended): under the flat-classpath model the assembler first
de-duplicates the user classpath (keeping first occurrences) and removes every
entry equal to a privileged JVMCI distribution jar path or archived-dependency
output directory; the retained entries are a subsequence of the original
classpath, each non-redundant entry is kept exactly once and the retained
entries appear ordered by their first occurrence in the original classpath
(the `indexOf` clause), and the assembled launch arguments always contain the
`-Djvmci.class.path.append=` directive listing every JVMCI classpath entry,
regardless of the user classpath. -/
theorem flat_classpath_subtract_and_privileged_directive
    (redundant cp : List String) :
    (stripRedundantClasspath redundant cp).Sublist cp
    ∧ (∀ e : String, (stripRedundantClasspath redundant cp).count e
        = if e ∈ redundant then 0 else if e ∈ cp then 1 else 0)
    ∧ (∀ a b : String, a ∈ stripRedundantClasspath redundant cp →
        b ∈ stripRedundantClasspath redundant cp →
        ((stripRedundantClasspath redundant cp).indexOf a
            < (stripRedundantClasspath redundant cp).indexOf b
          ↔ cp.indexOf a < cp.indexOf b))
    ∧ (∀ jvmciPaths bootPaths args : List String,
        ("-Djvmci.class.path.append=" ++ joinSep ':' jvmciPaths)
          ∈ parseVmArgsFlat jvmciPaths bootPaths args) := by
  refine ⟨(List.filter_sublist _).trans (sublist_uniqify cp), ?_, ?_, ?_⟩
  · intro e
    by_cases hr : e ∈ redundant
    · rw [if_pos hr]
      refine List.count_eq_zero.2 (fun hmem => ?_)
      have := List.of_mem_filter hmem
      simp only [decide_eq_true_eq] at this
      exact this hr
    · rw [if_neg hr, stripRedundantClasspath,
        List.count_filter (by simp [hr])]
      by_cases hc : e ∈ cp
      · rw [if_pos hc]
        exact List.count_eq_one_of_mem (nodup_uniqify cp) ((mem_uniqify cp e).2 hc)
      · rw [if_neg hc]
        exact List.count_eq_zero.2 (fun h => hc ((mem_uniqify cp e).1 h))
  · intro a b ha hb
    rw [stripRedundantClasspath] at ha hb ⊢
    have hacp : a ∈ cp := (mem_uniqify cp a).1 (List.mem_of_mem_filter ha)
    have hbcp : b ∈ cp := (mem_uniqify cp b).1 (List.mem_of_mem_filter hb)
    rw [indexOf_filter_lt _ (uniqify cp) (nodup_uniqify cp) a b ha hb]
    exact indexOf_uniqifyAux [] cp a b hacp hbcp (List.not_mem_nil a) (List.not_mem_nil b)
  · intro jvmciPaths bootPaths args
    exact List.mem_cons_self _ _

/-- Witness for C1's amended theorem: on classpath `B:A:B:R` with redundant
entry `R` the code keeps `[B, A]` — the first occurrences, in their original
relative order (a keep-last-occurrence de-duplication would give `[A, B]`). -/
theorem flat_classpath_subtract_and_privileged_directive_witness :
    stripRedundantClasspath ["R"] ["B", "A", "B", "R"] = ["B", "A"]
    ∧ ((stripRedundantClasspath ["R"] ["B", "A", "B", "R"]).indexOf "B"
          < (stripRedundantClasspath ["R"] ["B", "A", "B", "R"]).indexOf "A"
        ↔ (["B", "A", "B", "R"] : List String).indexOf "B"
          < (["B", "A", "B", "R"] : List String).indexOf "A") :=
  ⟨by decide,
   (flat_classpath_subtract_and_privileged_directive ["R"] ["B", "A", "B", "R"]).2.2.1
      "B" "A" (by decide) (by decide)⟩

/-- The `--module-path` scan of `_parseVmArgs` (mx_compiler.py, lines
779-792), over the argument list with the jar paths of `graalModulepath`.
The two `assert` statements (line 782: no `--upgrade-module-path` may appear
before the scan finds a module-path directive; line 784: a bare
`--module-path` needs a following value) are modeled as errors.  Returns the
rewritten argument list together with the `mpUpdated` flag. -/
def updateModulePath (jarpaths : List String) : List String → Except String (List String × Bool)
  | [] => Except.ok ([], false)
  | a :: rest =>
    if strStartsWith a "--upgrade-module-path" then
      Except.error ("unexpected argument " ++ a)
    else if a = "--module-path" then
      match rest with
      | [] => Except.error ("VM option " ++ a ++ " requires an argument")
      | v :: rest2 =>
        Except.ok (a :: joinSep ':' (uniqify (splitSep ':' v ++ jarpaths)) :: rest2, true)
    else if strStartsWith a "--module-path=" then
      Except.ok (("--module-path="
        ++ joinSep ':' (uniqify (splitSep ':' (strDrop a (strLen "--module-path=")) ++ jarpaths)))
        :: rest, true)
    else
      match updateModulePath jarpaths rest with
      | Except.error e => Except.error e
      | Except.ok (rest2, updated) => Except.ok (a :: rest2, updated)

/-- The `--upgrade-module-path=` directive appended by lines 796-797 when
`graalUpgrademodulepath` is non-empty. -/
def upgradeDirective (upgradepaths : List String) : List String :=
  if upgradepaths.isEmpty then []
  else ["--upgrade-module-path=" ++ joinSep ':' upgradepaths]

/-- A heap of argument lists: cell 0 is the caller's list. -/
structure ArgStore where
  cells : List (List String)

def ArgStore.readCell (s : ArgStore) (i : Nat) : List String := s.cells.getD i []

def ArgStore.writeCell (s : ArgStore) (i : Nat) (v : List String) : ArgStore :=
  ⟨s.cells.set i v⟩

/-- Embedding of `_parseVmArgs` (mx_compiler.py, lines 742-804), module (JDK 9+) branch,
with the caller's aliasing made explicit: the caller's argument list is heap
cell 0; line 743 (`args = mx.expand_project_in_args(args, insitu=False)`)
allocates a fresh cell 1 holding the expanded copy (the external mx helper
rewrites project references and, with `insitu=False`, builds a new list), and
the in-place directive updates of lines 785/790 write to the list bound to
`args`, i.e. cell 1.  `jarpaths` / `upgradepaths` are the jar paths of
`graalModulepath` / `graalUpgrademodulepath`; the environment-probing
`argsPrefix` entries and `jdk.processArgs` are outside the embedding.
Returns (caller's list after the call, assembled result). -/
def parseVmArgsModularHeap (expand : List String → List String)
    (jarpaths upgradepaths : List String) (callerArgs : List String) :
    List String × Except String (List String) :=
  let s0 : ArgStore := ⟨[callerArgs]⟩
  let callerRef : Nat := 0
  let s1 : ArgStore := ⟨s0.cells ++ [expand callerArgs]⟩
  let argsRef : Nat := 1
  match updateModulePath jarpaths (s1.readCell argsRef) with
  | Except.error e => (s1.readCell callerRef, Except.error e)
  | Except.ok (newArgs, mpUpdated) =>
    let s2 := s1.writeCell argsRef newArgs
    let fresh : List String :=
      if mpUpdated then []
      else ["--module-path=" ++ joinSep ':' jarpaths]
    (s2.readCell callerRef,
     Except.ok (fresh ++ upgradeDirective upgradepaths ++ s2.readCell argsRef))

/-- Arguments that the scan of lines 781-792 steps over without acting. -/
def scanInert (a : String) : Bool :=
  !strStartsWith a "--upgrade-module-path"
    && !(a = "--module-path" : Bool)
    && !strStartsWith a "--module-path="

/-- An argument is a module-path directive (either form). -/
def isModulePathDirective (a : String) : Bool :=
  (a = "--module-path" : Bool) || strStartsWith a "--module-path="

theorem updateModulePath_inert_append (jarpaths pre l : List String)
    (h : ∀ a ∈ pre, scanInert a = true) :
    updateModulePath jarpaths (pre ++ l)
      = match updateModulePath jarpaths l with
        | Except.error e => Except.error e
        | Except.ok (l2, u) => Except.ok (pre ++ l2, u) := by
  induction pre with
  | nil =>
    simp only [List.nil_append]
    cases updateModulePath jarpaths l with
    | error e => rfl
    | ok r => rfl
  | cons a pre ih =>
    have ha := h a (List.mem_cons_self _ _)
    simp only [scanInert, Bool.and_eq_true, Bool.not_eq_true',
      decide_eq_false_iff_not] at ha
    rw [List.cons_append]
    simp only [updateModulePath]
    rw [if_neg (by simp [ha.1.1]), if_neg ha.1.2, if_neg (by simp [ha.2])]
    rw [ih (fun b hb => h b (List.mem_cons_of_mem _ hb))]
    cases updateModulePath jarpaths l with
    | error e => rfl
    | ok r => rfl

theorem updateModulePath_extend_eq_form (jarpaths : List String)
    (pre post : List String) (a : String)
    (hpre : ∀ b ∈ pre, scanInert b = true)
    (hstart : strStartsWith a "--module-path=" = true)
    (hup : strStartsWith a "--upgrade-module-path" = false) :
    updateModulePath jarpaths (pre ++ a :: post)
      = Except.ok (pre
          ++ ("--module-path=" ++ joinSep ':'
               (uniqify (splitSep ':' (strDrop a (strLen "--module-path=")) ++ jarpaths)))
          :: post, true) := by
  have hne : a ≠ "--module-path" := by
    intro h
    rw [h] at hstart
    exact absurd hstart (by decide)
  rw [updateModulePath_inert_append jarpaths pre _ hpre]
  have hstep : updateModulePath jarpaths (a :: post)
      = Except.ok (("--module-path=" ++ joinSep ':'
          (uniqify (splitSep ':' (strDrop a (strLen "--module-path=")) ++ jarpaths)))
          :: post, true) := by
    simp only [updateModulePath, hup, hstart, if_neg hne]
    simp
  rw [hstep]

theorem updateModulePath_extend_bare_form (jarpaths : List String)
    (pre post : List String) (v : String)
    (hpre : ∀ b ∈ pre, scanInert b = true) :
    updateModulePath jarpaths (pre ++ "--module-path" :: v :: post)
      = Except.ok (pre
          ++ "--module-path" :: joinSep ':' (uniqify (splitSep ':' v ++ jarpaths))
          :: post, true) := by
  rw [updateModulePath_inert_append jarpaths pre _ hpre]
  have hstep : updateModulePath jarpaths ("--module-path" :: v :: post)
      = Except.ok ("--module-path"
          :: joinSep ':' (uniqify (splitSep ':' v ++ jarpaths)) :: post, true) := by
    simp [updateModulePath]
    decide
  rw [hstep]

theorem updateModulePath_all_inert (jarpaths l : List String)
    (h : ∀ b ∈ l, scanInert b = true) :
    updateModulePath jarpaths l = Except.ok (l, false) := by
  have := updateModulePath_inert_append jarpaths l [] h
  simpa [updateModulePath] using this

/-- C2: if the raw arguments already contain a module-path directive (either
`--module-path <value>` or `--module-path=<value>`), the assembler extends
that directive in place with the deployed modules' jar paths, de-duplicated
via `_uniqify`; no second directive is appended, and a fresh `--module-path=`
directive is produced only when no directive was present. -/
theorem module_path_directive_extended_in_place
    (expand : List String → List String)
    (jarpaths upgradepaths args : List String) :
    (∀ pre a post, expand args = pre ++ a :: post →
       (∀ b ∈ pre, scanInert b = true) →
       strStartsWith a "--module-path=" = true →
       strStartsWith a "--upgrade-module-path" = false →
       (parseVmArgsModularHeap expand jarpaths upgradepaths args).2
         = Except.ok (upgradeDirective upgradepaths ++ pre
             ++ ("--module-path=" ++ joinSep ':'
                  (uniqify (splitSep ':' (strDrop a (strLen "--module-path=")) ++ jarpaths)))
             :: post))
    ∧ (∀ pre v post, expand args = pre ++ "--module-path" :: v :: post →
       (∀ b ∈ pre, scanInert b = true) →
       (parseVmArgsModularHeap expand jarpaths upgradepaths args).2
         = Except.ok (upgradeDirective upgradepaths ++ pre
             ++ "--module-path" :: joinSep ':' (uniqify (splitSep ':' v ++ jarpaths))
             :: post))
    ∧ ((∀ b ∈ expand args, scanInert b = true) →
       (parseVmArgsModularHeap expand jarpaths upgradepaths args).2
         = Except.ok (("--module-path=" ++ joinSep ':' jarpaths)
             :: (upgradeDirective upgradepaths ++ expand args))) := by
  refine ⟨?_, ?_, ?_⟩
  · intro pre a post hexp hpre hstart hup
    have hupd := updateModulePath_extend_eq_form jarpaths pre post a hpre hstart hup
    rw [← hexp] at hupd
    simp [parseVmArgsModularHeap, ArgStore.readCell, ArgStore.writeCell, hupd]
  · intro pre v post hexp hpre
    have hupd := updateModulePath_extend_bare_form jarpaths pre post v hpre
    rw [← hexp] at hupd
    simp [parseVmArgsModularHeap, ArgStore.readCell, ArgStore.writeCell, hupd]
  · intro hinert
    have hupd := updateModulePath_all_inert jarpaths (expand args) hinert
    simp [parseVmArgsModularHeap, ArgStore.readCell, ArgStore.writeCell, hupd]

/-- Witness for C2: raw argument `--module-path=A:B` plus required path `C`
yields the single directive `--module-path=A:B:C`. -/
theorem module_path_directive_extended_in_place_witness :
    (parseVmArgsModularHeap id ["C"] [] ["--module-path=A:B"]).2
        = Except.ok ["--module-path=A:B:C"]
    ∧ (List.filter isModulePathDirective ["--module-path=A:B:C"]).length = 1 :=
  ⟨((module_path_directive_extended_in_place id ["C"] [] ["--module-path=A:B"]).1
      [] "--module-path=A:B" [] rfl (by simp) (by decide) (by decide)).trans
    (congrArg Except.ok (by decide)),
   by decide⟩

/-- C8 counterexample: with an earlier module-path directive in front of the
trailing bare `--module-path`, the line 779-792 scan extends the first
directive found and `break`s, never examining the trailing one — the call
produces a full argument vector and raises no error. -/
theorem module_path_missing_value_counterexample :
    (parseVmArgsModularHeap id ["C"] [] ["--module-path=A", "--module-path"]).2
      = Except.ok ["--module-path=A:C", "--module-path"]
    ∧ ∀ e : String,
        (parseVmArgsModularHeap id ["C"] [] ["--module-path=A", "--module-path"]).2
          ≠ Except.error e := by
  refine ⟨rfl, ?_⟩
  intro e h
  rw [show (parseVmArgsModularHeap id ["C"] [] ["--module-path=A", "--module-path"]).2
      = Except.ok ["--module-path=A:C", "--module-path"] from rfl] at h
  exact Except.noConfusion h

theorem updateModulePath_trailing_bare_error (jarpaths : List String) :
    ∀ (pre : List String),
      (∀ b ∈ pre, b ≠ "--module-path" ∧ strStartsWith b "--module-path=" = false) →
      ∃ e, updateModulePath jarpaths (pre ++ ["--module-path"]) = Except.error e := by
  intro pre
  induction pre with
  | nil => exact fun _ => ⟨"VM option --module-path requires an argument", rfl⟩
  | cons a pre ih =>
    intro h
    have ha := h a (List.mem_cons_self _ _)
    rw [List.cons_append]
    by_cases hup : strStartsWith a "--upgrade-module-path" = true
    · refine ⟨"unexpected argument " ++ a, ?_⟩
      simp only [updateModulePath]
      rw [if_pos hup]
    · obtain ⟨e, he⟩ := ih (fun b hb => h b (List.mem_cons_of_mem _ hb))
      refine ⟨e, ?_⟩
      simp only [updateModulePath]
      rw [if_neg hup, if_neg ha.1, if_neg (by simp [ha.2]), he]

/-- C8 (amended): if the raw argument list ends in a bare `--module-path`
directive with its required value argument missing and no earlier argument is
itself a module-path directive (an earlier one would stop the scan before the
trailing directive is examined), the assembler fails instead of producing an
argument vector — with the line-784 missing-value message
(`VM option --module-path requires an argument`, the spec's
ConfigurationError) whenever no preceding argument trips the line-782
`--upgrade-module-path` assert first. -/
theorem module_path_missing_value_aborts
    (expand : List String → List String)
    (jarpaths upgradepaths args pre : List String)
    (hexp : expand args = pre ++ ["--module-path"])
    (hpre : ∀ b ∈ pre, b ≠ "--module-path" ∧ strStartsWith b "--module-path=" = false) :
    (∃ e : String, (parseVmArgsModularHeap expand jarpaths upgradepaths args).2
        = Except.error e)
    ∧ ((∀ b ∈ pre, strStartsWith b "--upgrade-module-path" = false) →
        (parseVmArgsModularHeap expand jarpaths upgradepaths args).2
          = Except.error "VM option --module-path requires an argument") := by
  constructor
  · obtain ⟨e, he⟩ := updateModulePath_trailing_bare_error jarpaths pre hpre
    rw [← hexp] at he
    exact ⟨e, by simp [parseVmArgsModularHeap, ArgStore.readCell, he]⟩
  · intro hup
    have hinert : ∀ b ∈ pre, scanInert b = true := by
      intro b hb
      have h1 := hpre b hb
      have h2 := hup b hb
      simp [scanInert, h1.1, h1.2, h2]
    have hupd : updateModulePath jarpaths (expand args)
        = Except.error "VM option --module-path requires an argument" := by
      rw [hexp, updateModulePath_inert_append jarpaths pre _ hinert]
      have hstep : updateModulePath jarpaths ["--module-path"]
          = Except.error "VM option --module-path requires an argument" := rfl
      rw [hstep]
    simp [parseVmArgsModularHeap, ArgStore.readCell, hupd]

/-- Witness for C8's amended theorem at a concrete argument list ending in a
bare `--module-path` with no earlier directive. -/
theorem module_path_missing_value_aborts_witness :
    (parseVmArgsModularHeap id [] [] ["--version", "--module-path"]).2
      = Except.error "VM option --module-path requires an argument" :=
  (module_path_missing_value_aborts id [] [] ["--version", "--module-path"]
      ["--version"] rfl
      (by intro b hb; simp only [List.mem_singleton] at hb; subst hb
          exact ⟨by decide, by decide⟩)).2
    (by intro b hb; simp only [List.mem_singleton] at hb; subst hb; decide)

/-- C9: building a launch configuration leaves the caller's argument list
unchanged — line 743 rebinds `args` to a fresh list (`insitu=False`), so the
in-place `--module-path` updates of lines 785/790 target the copy (heap cell
1) and never the caller's list (heap cell 0); this holds in particular when an
existing `--module-path` directive is extended in place. -/
theorem parse_vm_args_does_not_mutate_caller :
    (∀ (expand : List String → List String)
        (jarpaths upgradepaths callerArgs : List String),
       (parseVmArgsModularHeap expand jarpaths upgradepaths callerArgs).1 = callerArgs)
    ∧ (parseVmArgsModularHeap id ["C"] [] ["--module-path=A:B"]).1
        = ["--module-path=A:B"] := by
  have hall : ∀ (expand : List String → List String)
      (jarpaths upgradepaths callerArgs : List String),
      (parseVmArgsModularHeap expand jarpaths upgradepaths callerArgs).1 = callerArgs := by
    intro expand jarpaths upgradepaths callerArgs
    cases hupd : updateModulePath jarpaths (expand callerArgs) with
    | error e =>
      simp [parseVmArgsModularHeap, ArgStore.readCell, ArgStore.writeCell, hupd]
    | ok r =>
      simp [parseVmArgsModularHeap, ArgStore.readCell, ArgStore.writeCell, hupd]
  exact ⟨hall, hall id ["C"] [] ["--module-path=A:B"]⟩

/-- Observable file-system actions of `_gate_java_benchmark`'s `finally`
block (mx_compiler.py, lines 434-441): dump (read and log) the crash log,
then delete it. -/
inductive BenchEvent : Type
  | dumped (path : String) (contents : String)
  | deleted (path : String)
deriving DecidableEq

/-- How a `_gate_java_benchmark` call ends. -/
inductive BenchOutcome : Type
  | passed
  | runAborted
  | abortedWith (msg : String)
deriving DecidableEq

/-- Embedding of `_gate_java_benchmark(args, successRe)` (mx_compiler.py, lines 423-444).
`search re out` stands for `re.search(re, out, re.MULTILINE)` (the external
regex engine); `findCrashLog out` for the line-435 search of the fixed
`hs_err_pid<N>.log` path pattern in the captured output; `readFile` for the
external file read.  `run_java` merges stderr into the captured stream
(`err=subprocess.STDOUT`) and, with the default `nonZeroIsFatal=True`, raises
an abort (modeled `runAborted`; its message comes from external `mx.run`) on
a nonzero `exitCode`; the `finally` block then salvages any crash log before
the abort propagates, and the success-pattern check only runs afterwards. -/
def gateJavaBenchmark (search : String → String → Bool)
    (findCrashLog : String → Option String) (readFile : String → String)
    (exitCode : Int) (outData : String) (successRe : String) :
    List BenchEvent × BenchOutcome :=
  let salvage : List BenchEvent :=
    match findCrashLog outData with
    | some p => [BenchEvent.dumped p (readFile p), BenchEvent.deleted p]
    | none => []
  if exitCode ≠ 0 then (salvage, BenchOutcome.runAborted)
  else if search successRe outData then (salvage, BenchOutcome.passed)
  else (salvage,
    BenchOutcome.abortedWith ("Could not find benchmark success pattern: " ++ successRe))

/-- C5: a benchmark verification run succeeds iff the success pattern matches
the captured combined output and the exit code is zero; with exit code zero
and no pattern match it aborts with the `Could not find benchmark success
pattern` message, and a nonzero exit code fails the run (inside `run_java`,
before the pattern check) even if the pattern matched. -/
theorem benchmark_success_iff_pattern_and_zero_exit
    (search : String → String → Bool) (findCrashLog : String → Option String)
    (readFile : String → String) (exitCode : Int) (outData successRe : String) :
    ((gateJavaBenchmark search findCrashLog readFile exitCode outData successRe).2
        = BenchOutcome.passed
      ↔ (search successRe outData = true ∧ exitCode = 0))
    ∧ (exitCode = 0 → search successRe outData = false →
        (gateJavaBenchmark search findCrashLog readFile exitCode outData successRe).2
          = BenchOutcome.abortedWith
              ("Could not find benchmark success pattern: " ++ successRe))
    ∧ (exitCode ≠ 0 →
        (gateJavaBenchmark search findCrashLog readFile exitCode outData successRe).2
          = BenchOutcome.runAborted) := by
  by_cases hz : exitCode = 0
  · subst hz
    by_cases hs : search successRe outData
    · refine ⟨by simp [gateJavaBenchmark, hs], ?_, by simp⟩
      intro _ hfalse
      rw [hs] at hfalse
      cases hfalse
    · refine ⟨by simp [gateJavaBenchmark, hs], ?_, by simp⟩
      intro _ _
      simp [gateJavaBenchmark, hs]
  · refine ⟨?_, fun h => absurd h hz, fun _ => by simp [gateJavaBenchmark, hz]⟩
    simp [gateJavaBenchmark, hz]

/-- Witness for C5: pattern present with exit 0 passes; the same output with
exit 1 fails; exit 0 without the pattern aborts with the pattern message. -/
theorem benchmark_success_iff_pattern_and_zero_exit_witness :
    (gateJavaBenchmark (fun re out => strStartsWith out re) (fun _ => none)
        (fun _ => "") 0 "PASSED ok" "PASSED").2 = BenchOutcome.passed
    ∧ (gateJavaBenchmark (fun re out => strStartsWith out re) (fun _ => none)
        (fun _ => "") 1 "PASSED ok" "PASSED").2 = BenchOutcome.runAborted
    ∧ (gateJavaBenchmark (fun re out => strStartsWith out re) (fun _ => none)
        (fun _ => "") 0 "oops" "PASSED").2
      = BenchOutcome.abortedWith "Could not find benchmark success pattern: PASSED" :=
  ⟨(benchmark_success_iff_pattern_and_zero_exit (fun re out => strStartsWith out re)
      (fun _ => none) (fun _ => "") 0 "PASSED ok" "PASSED").1.2 ⟨by decide, rfl⟩,
   (benchmark_success_iff_pattern_and_zero_exit (fun re out => strStartsWith out re)
      (fun _ => none) (fun _ => "") 1 "PASSED ok" "PASSED").2.2 (by decide),
   ((benchmark_success_iff_pattern_and_zero_exit (fun re out => strStartsWith out re)
      (fun _ => none) (fun _ => "") 0 "oops" "PASSED").2.1 rfl (by decide)).trans
     (congrArg BenchOutcome.abortedWith (by decide))⟩

/-- C6: on every exit path of a benchmark verification call — normal
completion, pattern-mismatch abort, or the abort raised by `run_java` on a
nonzero exit — if the captured output contains a recognizable crash-log path,
the `finally` block reads and logs that file's full contents and then deletes
it: the emitted actions are exactly a dump of the file's contents followed by
its deletion, whatever the outcome is. -/
theorem benchmark_crash_salvage_on_every_exit
    (search : String → String → Bool) (findCrashLog : String → Option String)
    (readFile : String → String) (exitCode : Int) (outData successRe p : String)
    (h : findCrashLog outData = some p) :
    (gateJavaBenchmark search findCrashLog readFile exitCode outData successRe).1
      = [BenchEvent.dumped p (readFile p), BenchEvent.deleted p] := by
  by_cases hz : exitCode = 0
  · subst hz
    by_cases hs : search successRe outData <;> simp [gateJavaBenchmark, h, hs]
  · simp [gateJavaBenchmark, h, hz]

/-- Witness for C6 on each of the three exit paths. -/
theorem benchmark_crash_salvage_on_every_exit_witness :
    (gateJavaBenchmark (fun re out => strStartsWith out re)
        (fun _ => some "/tmp/hs_err_pid7.log") (fun _ => "crash dump") 0
        "PASSED ok" "PASSED").1
      = [BenchEvent.dumped "/tmp/hs_err_pid7.log" "crash dump",
         BenchEvent.deleted "/tmp/hs_err_pid7.log"]
    ∧ (gateJavaBenchmark (fun re out => strStartsWith out re)
        (fun _ => some "/tmp/hs_err_pid7.log") (fun _ => "crash dump") 1
        "PASSED ok" "PASSED").1
      = [BenchEvent.dumped "/tmp/hs_err_pid7.log" "crash dump",
         BenchEvent.deleted "/tmp/hs_err_pid7.log"]
    ∧ (gateJavaBenchmark (fun re out => strStartsWith out re)
        (fun _ => some "/tmp/hs_err_pid7.log") (fun _ => "crash dump") 0
        "oops" "PASSED").1
      = [BenchEvent.dumped "/tmp/hs_err_pid7.log" "crash dump",
         BenchEvent.deleted "/tmp/hs_err_pid7.log"] :=
  ⟨benchmark_crash_salvage_on_every_exit _ _ _ 0 "PASSED ok" "PASSED"
      "/tmp/hs_err_pid7.log" rfl,
   benchmark_crash_salvage_on_every_exit _ _ _ 1 "PASSED ok" "PASSED"
      "/tmp/hs_err_pid7.log" rfl,
   benchmark_crash_salvage_on_every_exit _ _ _ 0 "oops" "PASSED"
      "/tmp/hs_err_pid7.log" rfl⟩

/-- Value of an `-XX:` style option: Python `_get_XX_option_value` returns
`False`, `True`, or the text after `=`. -/
inductive XXOptionValue : Type
  | asBool (b : Bool)
  | asText (s : String)
deriving DecidableEq

/-- The three per-argument tests of `_get_XX_option_value` (mx_compiler.py,
lines 171-177), in source order: `-XX:-<name>`, `-XX:+<name>`,
`-XX:<name>=<value>`. -/
def parseXXArg (name arg : String) : Option XXOptionValue :=
  if arg = "-XX:-" ++ name then some (XXOptionValue.asBool false)
  else if arg = "-XX:+" ++ name then some (XXOptionValue.asBool true)
  else if strStartsWith arg ("-XX:" ++ name ++ "=") then
    some (XXOptionValue.asText (strDrop arg (strLen ("-XX:" ++ name ++ "="))))
  else none

def getXXOptionValueRev (name : String) (dflt : XXOptionValue) :
    List String → XXOptionValue
  | [] => dflt
  | arg :: rest =>
    match parseXXArg name arg with
    | some v => v
    | none => getXXOptionValueRev name dflt rest

/-- Embedding of `_get_XX_option_value(vmargs, name, default)` (mx_compiler.py, lines
162-178): iterates `reversed(vmargs)` and returns at the first hit. -/
def getXXOptionValue (vmargs : List String) (name : String)
    (dflt : XXOptionValue) : XXOptionValue :=
  getXXOptionValueRev name dflt vmargs.reverse

/-- Embedding of `_is_jvmci_enabled(vmargs)` (mx_compiler.py, lines 180-186); `isJDK8` is
the module-level flag `jdk.javaCompliance <= '1.8'`. -/
def isJvmciEnabled (isJDK8 : Bool) (vmargs : List String) : XXOptionValue :=
  getXXOptionValue vmargs "EnableJVMCI" (XXOptionValue.asBool isJDK8)

theorem getXXOptionValueRev_skip (name : String) (dflt : XXOptionValue)
    (l1 l2 : List String) (h : ∀ a ∈ l1, parseXXArg name a = none) :
    getXXOptionValueRev name dflt (l1 ++ l2) = getXXOptionValueRev name dflt l2 := by
  induction l1 with
  | nil => rfl
  | cons a l1 ih =>
    rw [List.cons_append, getXXOptionValueRev, h a (List.mem_cons_self _ _)]
    exact ih (fun b hb => h b (List.mem_cons_of_mem _ hb))

/-- C10: `_get_XX_option_value` is decided by the last occurrence of the
named option in the argument list (`-XX:-<name>` gives `False`,
`-XX:+<name>` gives `True`, `-XX:<name>=<value>` gives the text after `=`),
falling back to the supplied default when the option never occurs; hence
`_is_jvmci_enabled` is decided by the last `EnableJVMCI` argument and
defaults to whether the JDK is JDK 8. -/
theorem xx_option_decided_by_last_occurrence :
    (∀ (name : String) (dflt v : XXOptionValue) (pre post : List String) (arg : String),
       parseXXArg name arg = some v →
       (∀ a ∈ post, parseXXArg name a = none) →
       getXXOptionValue (pre ++ arg :: post) name dflt = v)
    ∧ (∀ (name : String) (dflt : XXOptionValue) (vmargs : List String),
       (∀ a ∈ vmargs, parseXXArg name a = none) →
       getXXOptionValue vmargs name dflt = dflt)
    ∧ (∀ (j : Bool) (vmargs : List String),
       isJvmciEnabled j vmargs
         = getXXOptionValue vmargs "EnableJVMCI" (XXOptionValue.asBool j))
    ∧ parseXXArg "EnableJVMCI" "-XX:-EnableJVMCI" = some (XXOptionValue.asBool false)
    ∧ parseXXArg "EnableJVMCI" "-XX:+EnableJVMCI" = some (XXOptionValue.asBool true)
    ∧ parseXXArg "EnableJVMCI" "-XX:EnableJVMCI=x" = some (XXOptionValue.asText "x") := by
  refine ⟨?_, ?_, fun j vmargs => rfl, by decide, by decide, by decide⟩
  · intro name dflt v pre post arg harg hpost
    rw [getXXOptionValue, List.reverse_append, List.reverse_cons, List.append_assoc,
      getXXOptionValueRev_skip name dflt post.reverse _
        (fun a ha => hpost a (List.mem_reverse.1 ha))]
    rw [List.singleton_append, getXXOptionValueRev, harg]
  · intro name dflt vmargs h
    have : ∀ a ∈ vmargs.reverse, parseXXArg name a = none :=
      fun a ha => h a (List.mem_reverse.1 ha)
    rw [getXXOptionValue, ← List.append_nil vmargs.reverse,
      getXXOptionValueRev_skip name dflt vmargs.reverse [] this]
    rfl

/-- Witness for C10: the later `-XX:+EnableJVMCI` wins over the earlier
`-XX:-EnableJVMCI`, and an untouched list yields the default. -/
theorem xx_option_decided_by_last_occurrence_witness :
    getXXOptionValue ["-XX:-EnableJVMCI", "-XX:+EnableJVMCI"] "EnableJVMCI"
        (XXOptionValue.asBool false) = XXOptionValue.asBool true
    ∧ getXXOptionValue ["-version"] "EnableJVMCI" (XXOptionValue.asBool true)
        = XXOptionValue.asBool true :=
  ⟨xx_option_decided_by_last_occurrence.1 "EnableJVMCI" (XXOptionValue.asBool false)
      (XXOptionValue.asBool true) ["-XX:-EnableJVMCI"] [] "-XX:+EnableJVMCI"
      (by decide) (by simp),
   xx_option_decided_by_last_occurrence.2.1 "EnableJVMCI" (XXOptionValue.asBool true)
      ["-version"] (by decide)⟩

/-- Decimal digit test for the `[1-9][0-9]*` version group. -/
def isDigitChar (c : Char) : Bool := 48 ≤ c.toNat && c.toNat ≤ 57

/-- Embedding of `GraalArchiveParticipant.providersRE.match(arcname)` (mx_compiler.py,
line 906): the pattern is
`(?:META-INF/versions/([1-9][0-9]*)/)?META-INF/providers/(.+)`, anchored at
the start only; `.` does not match a newline, so the provider group runs to
the end of the first line of the remainder.  Returns the optional version
group and the provider group. -/
def matchProvidersArcname (arcname : String) : Option (Option String × String) :=
  let plain : String → Option String := fun s =>
    if strStartsWith s "META-INF/providers/" then
      let rest := (strDrop s (strLen "META-INF/providers/")).data.takeWhile
        (fun c => !(c = '\n' : Bool))
      if rest.isEmpty then none else some ⟨rest⟩
    else none
  if strStartsWith arcname "META-INF/versions/" then
    let rest := strDrop arcname (strLen "META-INF/versions/")
    let digits := rest.data.takeWhile isDigitChar
    let after : String := ⟨rest.data.drop digits.length⟩
    if !digits.isEmpty && !(digits.headD ' ' = '0' : Bool)
        && strStartsWith after "/" then
      match plain (strDrop after 1) with
      | some provider => some (some ⟨digits⟩, provider)
      | none => (plain arcname).map (fun p => ((none : Option String), p))
    else (plain arcname).map (fun p => ((none : Option String), p))
  else (plain arcname).map (fun p => ((none : Option String), p))

/-- The state of a `GraalArchiveParticipant` (mx_compiler.py, lines 904-956):
`services` is the archive's service map handed over by `__opened__`, keyed by
service interface; `versionedServices` is keyed by version and then by
service interface.  Python dicts are modeled as insertion-ordered association
lists. -/
structure ArchiveParticipant where
  isTest : Bool
  services : List (String × List String)
  versionedServices : List (String × List (String × List String))
deriving DecidableEq

/-- Embedding of `__opened__` (lines 911-914): adopt the archive's service map and start
with no versioned services. -/
def openParticipant (isTest : Bool) (services0 : List (String × List String)) :
    ArchiveParticipant :=
  ⟨isTest, services0, []⟩

/-- Python `d.setdefault(k, []).append(v)` on an insertion-ordered dict. -/
def setdefaultAppend {β : Type} (k : String) (v : β) :
    List (String × List β) → List (String × List β)
  | [] => [(k, [v])]
  | (k2, l) :: rest =>
    if k2 = k then (k2, l ++ [v]) :: rest
    else (k2, l) :: setdefaultAppend k v rest

/-- Embedding of `self.versionedServices.setdefault(version, {}).setdefault(service,
[]).append(provider)` (lines 934-935). -/
def setdefaultVersioned (version service provider : String) :
    List (String × List (String × List String)) → List (String × List (String × List String))
  | [] => [(version, [(service, [provider])])]
  | (k2, svcs) :: rest =>
    if k2 = version then (k2, setdefaultAppend service provider svcs) :: rest
    else (k2, svcs) :: setdefaultVersioned version service provider rest

/-- One iteration of the `for service in contents.strip().split(os.linesep)`
loop of `__add__` (lines 926-935). -/
def addServiceLine (p : ArchiveParticipant) (version : Option String)
    (service provider : String) : ArchiveParticipant :=
  match version with
  | none => { p with services := setdefaultAppend service provider p.services }
  | some v =>
    { p with versionedServices := setdefaultVersioned v service provider p.versionedServices }

/-- The loop of lines 926-935, with the `assert service` failure surfaced as
an error (an empty line aborts mid-loop, exactly as the Python `assert`). -/
def addServiceLines (version : Option String) (provider : String) :
    ArchiveParticipant → List String → Except String ArchiveParticipant
  | p, [] => Except.ok p
  | p, service :: rest =>
    if service.data.isEmpty then Except.error "assert service"
    else addServiceLines version provider (addServiceLine p version service provider) rest

/-- Embedding of `GraalArchiveParticipant.__add__(arcname, contents)` (lines 916-946).
The boolean result is the participant's claim on the entry (`True` keeps the
provider-declaration entry out of the normal archive stream). -/
def participantAdd (p : ArchiveParticipant) (arcname contents : String) :
    Except String (ArchiveParticipant × Bool) :=
  match matchProvidersArcname arcname with
  | some (version, provider) =>
    if p.isTest then Except.ok (p, true)
    else
      match addServiceLines version provider p (splitSep '\n' (strTrim contents)) with
      | Except.error e => Except.error e
      | Except.ok q => Except.ok (q, true)
  | none =>
    if strEndsWith arcname "_OptionDescriptors.class" then
      if p.isTest then Except.ok (p, false)
      else
        let provider : String :=
          ⟨(arcname.data.take (arcname.data.length - strLen ".class")).map
            (fun c => if c = '/' then '.' else c)⟩
        let services2 :=
          setdefaultAppend "org.graalvm.compiler.options.OptionDescriptors"
            provider p.services
        Except.ok ({ p with services := services2 }, false)
    else Except.ok (p, false)

/-- Fold `__add__` over the entries of one archive-assembly session. -/
def addEntries : ArchiveParticipant → List (String × String) →
    Except String ArchiveParticipant
  | p, [] => Except.ok p
  | p, (arcname, contents) :: rest =>
    match participantAdd p arcname contents with
    | Except.error e => Except.error e
    | Except.ok (q, _) => addEntries q rest

/-- One archive-assembly session: `__opened__` followed by the `__add__`
calls for each written entry. -/
def runSession (isTest : Bool) (services0 : List (String × List String))
    (entries : List (String × String)) : Except String ArchiveParticipant :=
  addEntries (openParticipant isTest services0) entries

/-- Embedding of `__closing__` (lines 951-956): one write per accumulated
`(version, service)` pair, at the version-scoped path, with the providers
de-duplicated and newline-joined.  Python renders `frozenset(providers)`,
whose iteration order is unspecified; the embedding fixes first-occurrence
order — every property proved below is order-insensitive. -/
def participantClosing (p : ArchiveParticipant) : List (String × String) :=
  p.versionedServices.flatMap (fun vs =>
    vs.2.map (fun sp =>
      ("META-INF/versions/" ++ vs.1 ++ "/META-INF/services/" ++ sp.1,
       joinSep '\n' (uniqify sp.2) ++ "\n")))

/-- The accumulated `(version, service, providers)` triples. -/
def accumulatedPairs (p : ArchiveParticipant) : List (String × String × List String) :=
  p.versionedServices.flatMap (fun vs => vs.2.map (fun sp => (vs.1, sp.1, sp.2)))

/-- Both dict layers of `versionedServices` have unique keys (true of Python
dicts by construction). -/
def versionedKeysNodup (l : List (String × List (String × List String))) : Prop :=
  (l.map Prod.fst).Nodup ∧ ∀ vs ∈ l, (vs.2.map Prod.fst).Nodup

theorem setdefaultAppend_keys {β : Type} (k : String) (v : β)
    (l : List (String × List β)) :
    (setdefaultAppend k v l).map Prod.fst
      = if k ∈ l.map Prod.fst then l.map Prod.fst else l.map Prod.fst ++ [k] := by
  induction l with
  | nil => simp [setdefaultAppend]
  | cons hd rest ih =>
    obtain ⟨k2, l2⟩ := hd
    by_cases hk : k2 = k
    · subst hk
      simp [setdefaultAppend]
    · simp only [setdefaultAppend, if_neg hk, List.map_cons]
      rw [ih]
      by_cases hm : k ∈ rest.map Prod.fst
      · rw [if_pos hm, if_pos (by simp [hm])]
      · rw [if_neg hm, if_neg (by simp [hm, Ne.symm hk])]
        simp

theorem setdefaultAppend_keys_nodup {β : Type} {k : String} {v : β}
    {l : List (String × List β)} (h : (l.map Prod.fst).Nodup) :
    ((setdefaultAppend k v l).map Prod.fst).Nodup := by
  rw [setdefaultAppend_keys]
  split
  · exact h
  · next hm =>
    rw [List.nodup_append]
    exact ⟨h, List.nodup_singleton k, by simpa using hm⟩

theorem setdefaultVersioned_keys (version service provider : String)
    (l : List (String × List (String × List String))) :
    (setdefaultVersioned version service provider l).map Prod.fst
      = if version ∈ l.map Prod.fst then l.map Prod.fst
        else l.map Prod.fst ++ [version] := by
  induction l with
  | nil => simp [setdefaultVersioned]
  | cons hd rest ih =>
    obtain ⟨k2, svcs⟩ := hd
    by_cases hk : k2 = version
    · subst hk
      simp [setdefaultVersioned]
    · simp only [setdefaultVersioned, if_neg hk, List.map_cons]
      rw [ih]
      by_cases hm : version ∈ rest.map Prod.fst
      · rw [if_pos hm, if_pos (by simp [hm])]
      · rw [if_neg hm, if_neg (by simp [hm, Ne.symm hk])]
        simp

theorem setdefaultVersioned_preserves (version service provider : String) :
    ∀ (l : List (String × List (String × List String))),
      versionedKeysNodup l
      → versionedKeysNodup (setdefaultVersioned version service provider l) := by
  intro l
  induction l with
  | nil =>
    intro _
    refine ⟨by simp [setdefaultVersioned], ?_⟩
    intro vs hvs
    simp only [setdefaultVersioned, List.mem_singleton] at hvs
    subst hvs
    simp
  | cons hd rest ih =>
    intro h
    obtain ⟨k2, svcs⟩ := hd
    have h1 : k2 ∉ rest.map Prod.fst ∧ (rest.map Prod.fst).Nodup := by
      have := h.1
      rw [List.map_cons, List.nodup_cons] at this
      exact this
    have hrest : versionedKeysNodup rest :=
      ⟨h1.2, fun vs hvs => h.2 vs (List.mem_cons_of_mem _ hvs)⟩
    by_cases hk : k2 = version
    · subst hk
      simp only [setdefaultVersioned, if_pos rfl]
      refine ⟨by simpa using h.1, ?_⟩
      intro vs hvs
      rcases List.mem_cons.1 hvs with hv | hv
      · subst hv
        exact setdefaultAppend_keys_nodup (h.2 (k2, svcs) (List.mem_cons_self _ _))
      · exact h.2 vs (List.mem_cons_of_mem _ hv)
    · simp only [setdefaultVersioned, if_neg hk]
      have ihr := ih hrest
      refine ⟨?_, ?_⟩
      · rw [List.map_cons, List.nodup_cons]
        refine ⟨?_, ihr.1⟩
        rw [setdefaultVersioned_keys]
        split
        · exact h1.1
        · intro hmem
          rcases List.mem_append.1 hmem with hm | hm
          · exact h1.1 hm
          · simp only [List.mem_singleton] at hm
            exact hk hm
      · intro vs hvs
        rcases List.mem_cons.1 hvs with hv | hv
        · subst hv
          exact h.2 (k2, svcs) (List.mem_cons_self _ _)
        · exact ihr.2 vs hv

theorem addServiceLine_preserves (p : ArchiveParticipant) (version : Option String)
    (service provider : String) (h : versionedKeysNodup p.versionedServices) :
    versionedKeysNodup (addServiceLine p version service provider).versionedServices := by
  cases version with
  | none => simpa [addServiceLine] using h
  | some v =>
    simpa [addServiceLine] using
      setdefaultVersioned_preserves v service provider p.versionedServices h

theorem addServiceLines_preserves (version : Option String) (provider : String) :
    ∀ (lines : List String) (p q : ArchiveParticipant),
      addServiceLines version provider p lines = Except.ok q
      → versionedKeysNodup p.versionedServices
      → versionedKeysNodup q.versionedServices := by
  intro lines
  induction lines with
  | nil =>
    intro p q hq hp
    cases hq
    exact hp
  | cons s rest ih =>
    intro p q hq hp
    rw [addServiceLines] at hq
    split at hq
    · cases hq
    · exact ih _ q hq (addServiceLine_preserves p version s provider hp)

theorem participantAdd_preserves {p q : ArchiveParticipant}
    {arcname contents : String} {b : Bool}
    (hadd : participantAdd p arcname contents = Except.ok (q, b))
    (h : versionedKeysNodup p.versionedServices) :
    versionedKeysNodup q.versionedServices := by
  unfold participantAdd at hadd
  split at hadd
  · split at hadd
    · cases hadd
      exact h
    · split at hadd
      · cases hadd
      · next heq =>
        cases hadd
        exact addServiceLines_preserves _ _ _ p _ heq h
  · split at hadd
    · split at hadd
      · cases hadd
        exact h
      · cases hadd
        exact h
    · cases hadd
      exact h

theorem addEntries_preserves :
    ∀ (entries : List (String × String)) (p q : ArchiveParticipant),
      addEntries p entries = Except.ok q
      → versionedKeysNodup p.versionedServices
      → versionedKeysNodup q.versionedServices := by
  intro entries
  induction entries with
  | nil =>
    intro p q hq hp
    cases hq
    exact hp
  | cons e rest ih =>
    intro p q hq hp
    obtain ⟨arcname, contents⟩ := e
    rw [addEntries] at hq
    split at hq
    · cases hq
    · next r heq => exact ih _ q hq (participantAdd_preserves heq hp)

theorem runSession_keysNodup {isTest : Bool}
    {services0 : List (String × List String)} {entries : List (String × String)}
    {p : ArchiveParticipant} (h : runSession isTest services0 entries = Except.ok p) :
    versionedKeysNodup p.versionedServices := by
  refine addEntries_preserves entries _ p h ?_
  exact ⟨by simp [openParticipant], by simp [openParticipant]⟩

theorem participantClosing_eq_map (p : ArchiveParticipant) :
    participantClosing p
      = (accumulatedPairs p).map
          (fun x => ("META-INF/versions/" ++ x.1 ++ "/META-INF/services/" ++ x.2.1,
            joinSep '\n' (uniqify x.2.2) ++ "\n")) := by
  unfold participantClosing accumulatedPairs
  rw [List.map_flatMap]
  simp only [List.map_map]
  rfl

theorem accumulatedPairs_keys_nodup {p : ArchiveParticipant}
    (h : versionedKeysNodup p.versionedServices) :
    ((accumulatedPairs p).map (fun x => (x.1, x.2.1))).Nodup := by
  unfold accumulatedPairs
  rw [List.map_flatMap]
  rw [List.nodup_flatMap]
  constructor
  · intro vs hvs
    rw [List.map_map]
    have hsvc : List.Pairwise (fun a b : String × List String => a.1 ≠ b.1) vs.2 :=
      List.pairwise_map.1 (h.2 vs hvs)
    exact List.Pairwise.map _ (fun a b hne heq => hne (congrArg Prod.snd heq)) hsvc
  · have hp : List.Pairwise (fun a b : String × List (String × List String)
        => a.1 ≠ b.1) p.versionedServices :=
      List.pairwise_map.1 h.1
    refine hp.imp ?_
    intro a b hab x hxa hxb
    simp only [List.map_map, List.mem_map] at hxa hxb
    obtain ⟨sa, _, hxa⟩ := hxa
    obtain ⟨sb, _, hxb⟩ := hxb
    have hcomp : (a.1, sa.1) = (b.1, sb.1) := hxa.trans hxb.symm
    injection hcomp with h1 _
    exact hab h1

theorem mem_accumulatedPairs {p : ArchiveParticipant} {v s : String}
    {svcs : List (String × List String)} {ps : List String}
    (hv : (v, svcs) ∈ p.versionedServices) (hs : (s, ps) ∈ svcs) :
    (v, s, ps) ∈ accumulatedPairs p := by
  unfold accumulatedPairs
  rw [List.mem_flatMap]
  exact ⟨(v, svcs), hv, List.mem_map.2 ⟨(s, ps), hs, rfl⟩⟩

/-- C3: at archive close, one consolidated registry entry is written for each
accumulated `(version, serviceInterface)` pair of the session — at path
`META-INF/versions/<version>/META-INF/services/<serviceInterface>` and with
the accumulated provider names de-duplicated and newline-joined — and no
`(version, service)` pair is written more than once. -/
theorem archive_close_writes_consolidated_registries
    (services0 : List (String × List String)) (entries : List (String × String))
    (p : ArchiveParticipant)
    (hrun : runSession false services0 entries = Except.ok p) :
    participantClosing p
      = (accumulatedPairs p).map
          (fun x => ("META-INF/versions/" ++ x.1 ++ "/META-INF/services/" ++ x.2.1,
            joinSep '\n' (uniqify x.2.2) ++ "\n"))
    ∧ ((accumulatedPairs p).map (fun x => (x.1, x.2.1))).Nodup
    ∧ (∀ (v s : String) (svcs : List (String × List String)) (ps : List String),
        (v, svcs) ∈ p.versionedServices → (s, ps) ∈ svcs →
        (v, s, ps) ∈ accumulatedPairs p)
    ∧ (∀ x ∈ accumulatedPairs p,
        (uniqify x.2.2).Nodup ∧ ∀ a : String, a ∈ uniqify x.2.2 ↔ a ∈ x.2.2) := by
  have hinv := runSession_keysNodup hrun
  refine ⟨participantClosing_eq_map p, accumulatedPairs_keys_nodup hinv, ?_, ?_⟩
  · intro v s svcs ps hv hs
    exact mem_accumulatedPairs hv hs
  · intro x _
    exact ⟨nodup_uniqify _, fun a => mem_uniqify _ a⟩

/-- Witness for C3: the session of the spec's example — providers `P1`, `P1`
again, and `P2`, all declaring service `X` at version `1` — consolidates to
exactly one registry entry `META-INF/versions/1/META-INF/services/X` with
content `P1\nP2\n` (duplicate `P1` removed). -/
theorem archive_close_writes_consolidated_registries_witness :
    runSession false []
        [("META-INF/versions/1/META-INF/providers/P1", "X"),
         ("META-INF/versions/1/META-INF/providers/P1", "X"),
         ("META-INF/versions/1/META-INF/providers/P2", "X")]
      = Except.ok ⟨false, [], [("1", [("X", ["P1", "P1", "P2"])])]⟩
    ∧ participantClosing ⟨false, [], [("1", [("X", ["P1", "P1", "P2"])])]⟩
      = [("META-INF/versions/1/META-INF/services/X", "P1\nP2\n")]
    ∧ ((accumulatedPairs ⟨false, [], [("1", [("X", ["P1", "P1", "P2"])])]⟩).map
        (fun x => (x.1, x.2.1))).Nodup :=
  ⟨rfl, rfl,
   (archive_close_writes_consolidated_registries []
      [("META-INF/versions/1/META-INF/providers/P1", "X"),
       ("META-INF/versions/1/META-INF/providers/P1", "X"),
       ("META-INF/versions/1/META-INF/providers/P2", "X")]
      ⟨false, [], [("1", [("X", ["P1", "P1", "P2"])])]⟩ rfl).2.1⟩

theorem addEntries_test_inert :
    ∀ (entries : List (String × String)) (q : ArchiveParticipant),
      q.isTest = true →
      (∀ e ∈ entries, (matchProvidersArcname e.1).isSome = true) →
      addEntries q entries = Except.ok q := by
  intro entries
  induction entries with
  | nil => intro q _ _; rfl
  | cons e rest ih =>
    intro q hq hall
    obtain ⟨arcname, contents⟩ := e
    have hsome := hall (arcname, contents) (List.mem_cons_self _ _)
    rw [addEntries]
    match hm : matchProvidersArcname arcname with
    | none => rw [hm] at hsome; cases hsome
    | some (version, provider) =>
      have hstep : participantAdd q arcname contents = Except.ok (q, true) := by
        unfold participantAdd
        rw [hm]
        simp [hq]
      rw [hstep]
      exact ih q hq (fun e2 he2 => hall e2 (List.mem_cons_of_mem _ he2))

/-- C4: in test mode every entry matching the provider-declaration naming
convention is left alone: `__add__` claims it without touching the service
maps, and a session made of such entries ends in the opened state, so archive
close emits no consolidated registry file. -/
theorem test_mode_providers_not_aggregated :
    (∀ (p : ArchiveParticipant) (arcname contents : String),
       p.isTest = true → (matchProvidersArcname arcname).isSome = true →
       participantAdd p arcname contents = Except.ok (p, true))
    ∧ (∀ (services0 : List (String × List String))
         (entries : List (String × String)) (p : ArchiveParticipant),
       (∀ e ∈ entries, (matchProvidersArcname e.1).isSome = true) →
       runSession true services0 entries = Except.ok p →
       p = openParticipant true services0 ∧ participantClosing p = []) := by
  constructor
  · intro p arcname contents hT hsome
    match hm : matchProvidersArcname arcname with
    | none => rw [hm] at hsome; cases hsome
    | some (version, provider) =>
      unfold participantAdd
      rw [hm]
      simp [hT]
  · intro services0 entries p hall hrun
    rw [runSession, addEntries_test_inert entries _ rfl hall] at hrun
    cases hrun
    exact ⟨rfl, rfl⟩

/-- Witness for C4: a test-mode session over a provider-declaration entry
leaves the participant in its opened state and emits nothing at close. -/
theorem test_mode_providers_not_aggregated_witness :
    participantAdd (openParticipant true []) "META-INF/providers/P" "X"
      = Except.ok (openParticipant true [], true)
    ∧ (openParticipant true [] = openParticipant true []
        ∧ participantClosing (openParticipant true []) = []) :=
  ⟨test_mode_providers_not_aggregated.1 (openParticipant true [])
      "META-INF/providers/P" "X" rfl rfl,
   test_mode_providers_not_aggregated.2 [] [("META-INF/providers/P", "X")]
      (openParticipant true [])
      (by intro e he; simp only [List.mem_singleton] at he; subst he; rfl) rfl⟩
